import Mathlib

/-!
Layer orchestration of `cnn_fpga`.

A shallow embedding of `cnn_fpga` from `src/fpga/cnn_fpga.cpp` and theorems about
its bookkeeping: the ping-pong buffer selection, the tiling arguments handed to
the convolution kernel, and the running pointer into the parameter stream.

Modelling conventions.

* The tables `SHAPE`, `CHNEL`, `KERNL`, `POOL` are `extern const` arrays and
  `CONV_LAYER_NUM`, `FC_LAYER_NUM`, `ITILE`, `OTILE` come from `common.h`; none of
  their values is part of the translation unit, so all of them are parameters
  (`Topology`).
* A table read is `tbl[i]?`; a read outside the table, like a division by zero,
  has no defined result in C++ and makes the model return `none`.
* A C++ `int` value is an `Int`.  The products and sums the code forms in `int`
  (lines 61, 124, 185-186) are 32-bit: `imul` and `iadd` reduce the exact result
  to its two's complement value (`wrap32`).  `/` is truncated division
  (`Int.tdiv`).
* A `Dtype *` is an address counted in `Dtype` elements, so `cur_params += n`
  is integer addition.  The two results of `sds_alloc` are parameters
  (`Pointers.bufferA`, `Pointers.bufferB`): the model describes the runs in which
  both allocations succeeded.
* `conv_fpga` and `computing_check` are external; a run records the arguments
  of every call to them, in call order.  Console output and the performance
  counter are not recorded.
-/

namespace EmbeddedCNN

/-- A `Dtype *`: an address counted in `Dtype` elements. -/
abbrev Dptr := Int

/-- The static network description read by `cnn_fpga`: the four `extern const`
tables and the constants of `common.h`. -/
structure Topology where
  SHAPE : List Int
  CHNEL : List Int
  KERNL : List Int
  POOL : List Bool
  CONV_LAYER_NUM : Nat
  FC_LAYER_NUM : Nat
  ITILE : Int
  OTILE : Int

/-- The pointers of one run: the three arguments of `cnn_fpga` and the two
buffers returned by `sds_alloc`. -/
structure Pointers where
  In : Dptr
  Out : Dptr
  Params : Dptr
  bufferA : Dptr
  bufferB : Dptr

/-- The fifteen arguments of one `conv_fpga` call, in argument order. -/
structure ConvArgs where
  input : Dptr
  paramSlice : Dptr
  output : Dptr
  layerIndex : Int
  rows : Int
  cols : Int
  channelReadWidth : Int
  kernelSize : Int
  fanIn : Int
  inputSections : Int
  outputChannels : Int
  outputSections : Int
  weightShift : Int
  poolingDivisor : Int
  poolingEnabled : Bool
deriving DecidableEq, Repr

/-- A call made by `cnn_fpga` to one of its external collaborators. -/
inductive Event where
  | conv_fpga (args : ConvArgs)
  | computing_check (buffer_ptr : Dptr) (c_layer : Int) (pool : Bool)
deriving DecidableEq, Repr

/-- The variables that live across iterations of the convolution loop, together
with the calls made so far. -/
structure LoopState where
  pingpang : Int
  cur_params : Dptr
  events : List Event
deriving DecidableEq, Repr

/-- The result of a completed run of `cnn_fpga`. -/
structure Run where
  max_buf_size : Int
  pingpang : Int
  cur_params : Dptr
  events : List Event
deriving DecidableEq, Repr

/-- The value a 32-bit two's complement `int` holds for the exact result `x`:
the integer congruent to `x` modulo `2^32` between `-2^31` and `2^31 - 1`. -/
def wrap32 (x : Int) : Int :=
  (x + 2147483648) % 4294967296 - 2147483648

/-- C++ `a * b` on `int`. -/
def imul (a b : Int) : Int := wrap32 (a * b)

/-- C++ `a + b` on `int`. -/
def iadd (a b : Int) : Int := wrap32 (a + b)

/-- The integers a 32-bit `int` holds. -/
def InInt (x : Int) : Prop :=
  -2147483648 ≤ x ∧ x ≤ 2147483647

instance (x : Int) : Decidable (InInt x) := by
  unfold InInt; infer_instance

/-- C++ `a / b` on `int`: undefined for `b = 0`, truncating otherwise. -/
def cdiv (a b : Int) : Option Int :=
  if b = 0 then none else some (Int.tdiv a b)

/-- The `switch (c_layer)` at the top of the loop body (lines 74-90). -/
def w_isec (c_layer : Nat) : Int :=
  match c_layer with
  | 0 => 0
  | 1 => 2
  | 2 => 2
  | 4 => 2
  | 5 => 2
  | 6 => 2
  | 3 => 3
  | 7 => 1
  | 8 => 1
  | 9 => 1
  | 10 => 1
  | 11 => 1
  | 12 => 1
  | _ => 0

/-- One iteration of the convolution loop (lines 73-195) for `c_layer`. -/
def convLayer (t : Topology) (p : Pointers) (c_layer : Nat) (s : LoopState) :
    Option LoopState := do
  let col_num ← t.SHAPE[c_layer]?
  let row_num ← t.SHAPE[c_layer]?
  let s1 ←
    if c_layer = 0 then do
      let chnl_to_read : Int := 3
      let isec : Int := 1
      let chnel_c ← t.CHNEL[c_layer]?
      let osec ← cdiv chnel_c t.OTILE
      let pool_c ← t.POOL[c_layer]?
      let pool_div : Int := if pool_c then 4 else 1
      let kernl_c ← t.KERNL[c_layer]?
      let chnel_0 ← t.CHNEL[0]?
      let kernl_0 ← t.KERNL[0]?
      pure
        { pingpang := 1
          cur_params := s.cur_params +
            iadd (imul (imul (imul chnel_0 3) kernl_0) kernl_0) chnel_0
          events := s.events ++ [Event.conv_fpga
            { input := p.In
              paramSlice := s.cur_params
              output := p.bufferB
              layerIndex := c_layer
              rows := row_num
              cols := col_num
              channelReadWidth := chnl_to_read
              kernelSize := kernl_c
              fanIn := chnl_to_read
              inputSections := isec
              outputChannels := chnel_c
              outputSections := osec
              weightShift := w_isec c_layer
              poolingDivisor := pool_div
              poolingEnabled := pool_c }] }
    else do
      let chnl_to_read : Int := t.ITILE
      let chnel_p ← t.CHNEL[c_layer - 1]?
      let isec ← cdiv chnel_p t.ITILE
      let chnel_c ← t.CHNEL[c_layer]?
      let osec ← cdiv chnel_c t.OTILE
      let pool_c ← t.POOL[c_layer]?
      let pool_div : Int := if pool_c then 4 else 1
      let kernl_c ← t.KERNL[c_layer]?
      let kernl_0 ← t.KERNL[0]?
      if s.pingpang = 0 then
        pure
          { pingpang := 1
            cur_params := s.cur_params +
              iadd (imul (imul (imul chnel_c chnel_p) kernl_0) kernl_0) chnel_c
            events := s.events ++ [Event.conv_fpga
              { input := p.bufferA
                paramSlice := s.cur_params
                output := p.bufferB
                layerIndex := c_layer
                rows := row_num
                cols := col_num
                channelReadWidth := chnl_to_read
                kernelSize := kernl_c
                fanIn := chnel_p
                inputSections := isec
                outputChannels := chnel_c
                outputSections := osec
                weightShift := w_isec c_layer
                poolingDivisor := pool_div
                poolingEnabled := pool_c }] }
      else
        pure
          { pingpang := 0
            cur_params := s.cur_params +
              iadd (imul (imul (imul chnel_c chnel_p) kernl_0) kernl_0) chnel_c
            events := s.events ++ [Event.conv_fpga
              { input := p.bufferB
                paramSlice := s.cur_params
                output := p.bufferA
                layerIndex := c_layer
                rows := row_num
                cols := col_num
                channelReadWidth := chnl_to_read
                kernelSize := kernl_c
                fanIn := chnel_p
                inputSections := isec
                outputChannels := chnel_c
                outputSections := osec
                weightShift := w_isec c_layer
                poolingDivisor := pool_div
                poolingEnabled := pool_c }] }
  if c_layer = 1 then do
    let buffer_ptr : Dptr := if s1.pingpang = 0 then p.bufferA else p.bufferB
    let pool_c ← t.POOL[c_layer]?
    pure { s1 with events := s1.events ++ [Event.computing_check buffer_ptr c_layer pool_c] }
  else
    pure s1

/-- The loop state on entry to iteration `n` of
`for (c_layer = 0; c_layer < CONV_LAYER_NUM; c_layer++)`, that is after the
iterations `0, ..., n - 1`; `pingpang = 0` and `cur_params = Params` at the start
(lines 70-72). -/
def convLoop (t : Topology) (p : Pointers) : Nat → Option LoopState
  | 0 => some { pingpang := 0, cur_params := p.Params, events := [] }
  | n + 1 => (convLoop t p n).bind (convLayer t p n)

/-- The loop over the FC layers (lines 198-203): `fc_fpga` is commented out and
the body only prints, so every iteration leaves the state as it is. -/
def fcLoop : Nat → LoopState → LoopState
  | 0, s => s
  | n + 1, s => fcLoop n s

/-- The function `cnn_fpga` (lines 53-208): size the two scratch buffers (line
61), run the convolution loop to `CONV_LAYER_NUM`, then the loop over the FC
layers. -/
def cnn_fpga (t : Topology) (p : Pointers) : Option Run := do
  let shape_0 ← t.SHAPE[0]?
  let chnel_0 ← t.CHNEL[0]?
  let max_buf_size : Int := imul (imul shape_0 shape_0) chnel_0
  let s0 ← convLoop t p t.CONV_LAYER_NUM
  let s := fcLoop t.FC_LAYER_NUM s0
  pure
    { max_buf_size := max_buf_size
      pingpang := s.pingpang
      cur_params := s.cur_params
      events := s.events }

/-- The `conv_fpga` calls of an event list, in call order. -/
def convCalls : List Event → List ConvArgs
  | [] => []
  | Event.conv_fpga a :: es => a :: convCalls es
  | Event.computing_check _ _ _ :: es => convCalls es

/-- The conditions under which every table read of a run is inside its table
and no division has a zero divisor. -/
def WellFormed (t : Topology) : Prop :=
  0 < t.SHAPE.length ∧ 0 < t.CHNEL.length ∧
  t.CONV_LAYER_NUM ≤ t.SHAPE.length ∧ t.CONV_LAYER_NUM ≤ t.CHNEL.length ∧
  t.CONV_LAYER_NUM ≤ t.KERNL.length ∧ t.CONV_LAYER_NUM ≤ t.POOL.length ∧
  t.ITILE ≠ 0 ∧ t.OTILE ≠ 0

instance (t : Topology) : Decidable (WellFormed t) := by
  unfold WellFormed; infer_instance

/-- Reference definition, following the specification's words: the fan-in of
layer `i` is 3 for layer 0 and `channels[i-1]` otherwise. -/
def fan_in (t : Topology) (i : Nat) : Int :=
  if i = 0 then 3 else t.CHNEL.getD (i - 1) 0

/-- Reference definition, following the specification's words: the parameter
footprint `channels[i] * fan_in[i] * kernel[i]^2 + channels[i]` of layer `i`. -/
def footprint (t : Topology) (i : Nat) : Int :=
  t.CHNEL.getD i 0 * fan_in t i * t.KERNL.getD i 0 ^ 2 + t.CHNEL.getD i 0

/-- The two-layer network of the specification's scenario (`channels = [4, 8]`,
`kernel = [3, 3]`, `shape = [32, 16]`, `pooling = [true, false]`), for given tile
widths. -/
def net2 (ITILE OTILE : Int) : Topology :=
  { SHAPE := [32, 16], CHNEL := [4, 8], KERNL := [3, 3], POOL := [true, false],
    CONV_LAYER_NUM := 2, FC_LAYER_NUM := 0, ITILE := ITILE, OTILE := OTILE }

/-- A three-layer network whose middle layer has a 5x5 kernel while layer 0 has
a 3x3 kernel. -/
def netK : Topology :=
  { SHAPE := [32, 16, 16], CHNEL := [4, 8, 8], KERNL := [3, 5, 3],
    POOL := [true, false, false],
    CONV_LAYER_NUM := 3, FC_LAYER_NUM := 0, ITILE := 4, OTILE := 4 }

/-- A two-layer network without pooling after layer 0 whose second layer has
more output channels than the first. -/
def netWide : Topology :=
  { SHAPE := [32, 32], CHNEL := [16, 32], KERNL := [3, 3], POOL := [false, false],
    CONV_LAYER_NUM := 2, FC_LAYER_NUM := 0, ITILE := 4, OTILE := 4 }

/-- A two-layer network whose layer 0 has 12 output channels, with input tile
width 8. -/
def netUneven : Topology :=
  { SHAPE := [32, 16], CHNEL := [12, 16], KERNL := [3, 3], POOL := [true, false],
    CONV_LAYER_NUM := 2, FC_LAYER_NUM := 0, ITILE := 8, OTILE := 4 }

/-- Sample pointers: five distinct addresses. -/
def ptrs : Pointers :=
  { In := 1000, Out := 2000, Params := 0, bufferA := 3000, bufferB := 4000 }

/-- The `computing_check` calls of an event list, in call order, each with its
three arguments. -/
def checkCalls : List Event → List (Dptr × Int × Bool)
  | [] => []
  | Event.conv_fpga _ :: es => checkCalls es
  | Event.computing_check buffer_ptr c_layer pool :: es =>
    (buffer_ptr, c_layer, pool) :: checkCalls es

/-- Reference definition, following the specification's words: the cursor
trajectory `cursor_0 = start`, `cursor_(i+1) = cursor_i + footprint(i)`. -/
def refCursor (t : Topology) (start : Dptr) : Nat → Dptr
  | 0 => start
  | i + 1 => refCursor t start i + footprint t i

/-- A sample topology with the declared table lengths (`SHAPE` and `CHNEL` of
length 18, `KERNL` and `POOL` of length 13), shaped like VGG-16: thirteen 3x3
convolution layers and three FC layers. -/
def net13 : Topology :=
  { SHAPE := [224, 224, 112, 112, 56, 56, 56, 28, 28, 28, 14, 14, 14, 7, 1, 1, 1, 1]
    CHNEL := [64, 64, 128, 128, 256, 256, 256, 512, 512, 512, 512, 512, 512, 512,
      4096, 4096, 1000, 1000]
    KERNL := [3, 3, 3, 3, 3, 3, 3, 3, 3, 3, 3, 3, 3]
    POOL := [false, true, false, true, false, false, true, false, false, true,
      false, false, true]
    CONV_LAYER_NUM := 13, FC_LAYER_NUM := 3, ITILE := 16, OTILE := 32 }

/-- A three-layer network with 3x3 kernels throughout whose first two layers
have 65536 output channels each, so that `CHNEL[1] * CHNEL[0]` is `2^32`. -/
def netBig : Topology :=
  { SHAPE := [8, 8, 8], CHNEL := [65536, 65536, 4], KERNL := [3, 3, 3],
    POOL := [false, false, false],
    CONV_LAYER_NUM := 3, FC_LAYER_NUM := 0, ITILE := 16, OTILE := 4 }

/-- The amount added to `cur_params` by iteration `c` (line 124 for `c = 0`,
lines 185-186 otherwise), formed in 32-bit `int` like there and read from the
tables with `getD`; inside the tables it is the increment of `convLayer`. -/
def advance (t : Topology) (c : Nat) : Int :=
  if c = 0 then
    iadd (imul (imul (imul (t.CHNEL.getD 0 0) 3) (t.KERNL.getD 0 0)) (t.KERNL.getD 0 0))
      (t.CHNEL.getD 0 0)
  else
    iadd (imul (imul (imul (t.CHNEL.getD c 0) (t.CHNEL.getD (c - 1) 0)) (t.KERNL.getD 0 0))
      (t.KERNL.getD 0 0)) (t.CHNEL.getD c 0)

/-- The `conv_fpga` call of iteration `c` from state `s`, read from the tables
with `getD`; inside the tables it is the call of `convLayer`. -/
def layerCall (t : Topology) (p : Pointers) (c : Nat) (s : LoopState) : ConvArgs :=
  { input := if c = 0 then p.In else if s.pingpang = 0 then p.bufferA else p.bufferB
    paramSlice := s.cur_params
    output := if c = 0 then p.bufferB else if s.pingpang = 0 then p.bufferB else p.bufferA
    layerIndex := c
    rows := t.SHAPE.getD c 0
    cols := t.SHAPE.getD c 0
    channelReadWidth := if c = 0 then 3 else t.ITILE
    kernelSize := t.KERNL.getD c 0
    fanIn := if c = 0 then 3 else t.CHNEL.getD (c - 1) 0
    inputSections := if c = 0 then 1 else Int.tdiv (t.CHNEL.getD (c - 1) 0) t.ITILE
    outputChannels := t.CHNEL.getD c 0
    outputSections := Int.tdiv (t.CHNEL.getD c 0) t.OTILE
    weightShift := w_isec c
    poolingDivisor := if t.POOL.getD c false then 4 else 1
    poolingEnabled := t.POOL.getD c false }

/-- The loop state after iteration `c` from state `s`, read from the tables with
`getD`; inside the tables it is the result of `convLayer`. -/
def layerNext (t : Topology) (p : Pointers) (c : Nat) (s : LoopState) : LoopState :=
  { pingpang := if c = 0 then 1 else if s.pingpang = 0 then 1 else 0
    cur_params := s.cur_params + advance t c
    events := s.events ++ Event.conv_fpga (layerCall t p c s) ::
      (if c = 1 then
        [Event.computing_check (if s.pingpang = 0 then p.bufferB else p.bufferA) c
          (t.POOL.getD c false)]
       else []) }

/-- The loop state on entry to iteration `n`, read from the tables with `getD`;
inside the tables it is the state of `convLoop`. -/
def loopOf (t : Topology) (p : Pointers) : Nat → LoopState
  | 0 => { pingpang := 0, cur_params := p.Params, events := [] }
  | n + 1 => layerNext t p n (loopOf t p n)

/-- The facts that tie one iteration `c` of the loop, taken from state `s` to
state `s1`, to the `conv_fpga` call `a` it makes. -/
structure LayerFacts (t : Topology) (p : Pointers) (c : Nat) (s s1 : LoopState)
    (a : ConvArgs) : Prop where
  input : a.input = if c = 0 then p.In else if s.pingpang = 0 then p.bufferA else p.bufferB
  output : a.output = if c = 0 then p.bufferB else
    if s.pingpang = 0 then p.bufferB else p.bufferA
  slice : a.paramSlice = s.cur_params
  layer : a.layerIndex = c
  rows : t.SHAPE[c]? = some a.rows
  cols : t.SHAPE[c]? = some a.cols
  width : a.channelReadWidth = if c = 0 then 3 else t.ITILE
  kernel : t.KERNL[c]? = some a.kernelSize
  fanIn : if c = 0 then a.fanIn = 3 else t.CHNEL[c - 1]? = some a.fanIn
  isec : a.inputSections = if c = 0 then 1 else Int.tdiv a.fanIn t.ITILE
  chan : t.CHNEL[c]? = some a.outputChannels
  osec : a.outputSections = Int.tdiv a.outputChannels t.OTILE
  shift : a.weightShift = w_isec c
  pool : t.POOL[c]? = some a.poolingEnabled
  pdiv : a.poolingDivisor = if a.poolingEnabled then 4 else 1
  ping : s1.pingpang = if c = 0 then 1 else if s.pingpang = 0 then 1 else 0
  cursor : ∃ k0, t.KERNL[0]? = some k0 ∧
    s1.cur_params = s.cur_params +
      iadd (imul (imul (imul a.outputChannels a.fanIn) k0) k0) a.outputChannels
  adv : s1.cur_params = s.cur_params + advance t c
  events : s1.events = s.events ++ Event.conv_fpga a ::
    (if c = 1 then
      [Event.computing_check (if s1.pingpang = 0 then p.bufferA else p.bufferB) c
        a.poolingEnabled]
     else [])

/-! ## One iteration of the loop in closed form -/

theorem cdiv_of_ne_zero (a : Int) {b : Int} (hb : b ≠ 0) : cdiv a b = some (Int.tdiv a b) := by
  simp [cdiv, hb]

theorem convLayer_zero (t : Topology) (p : Pointers) (s : LoopState) {sh ch k : Int} {pl : Bool}
    (hs : t.SHAPE[0]? = some sh) (hc : t.CHNEL[0]? = some ch) (hk : t.KERNL[0]? = some k)
    (hp : t.POOL[0]? = some pl) (ho : t.OTILE ≠ 0) :
    convLayer t p 0 s = some
      { pingpang := 1
        cur_params := s.cur_params + iadd (imul (imul (imul ch 3) k) k) ch
        events := s.events ++ [Event.conv_fpga
          { input := p.In, paramSlice := s.cur_params, output := p.bufferB, layerIndex := 0,
            rows := sh, cols := sh, channelReadWidth := 3, kernelSize := k, fanIn := 3,
            inputSections := 1, outputChannels := ch, outputSections := Int.tdiv ch t.OTILE,
            weightShift := 0, poolingDivisor := if pl then 4 else 1, poolingEnabled := pl }] } := by
  simp [convLayer, hs, hc, hk, hp, cdiv_of_ne_zero _ ho, w_isec]

theorem convLayer_pos (t : Topology) (p : Pointers) (s : LoopState) (c : Nat) (hc0 : c ≠ 0)
    {sh ch chp k k0 : Int} {pl : Bool}
    (hs : t.SHAPE[c]? = some sh) (hc : t.CHNEL[c]? = some ch)
    (hcp : t.CHNEL[c - 1]? = some chp) (hk : t.KERNL[c]? = some k)
    (hk0 : t.KERNL[0]? = some k0) (hp : t.POOL[c]? = some pl)
    (hi : t.ITILE ≠ 0) (ho : t.OTILE ≠ 0) :
    convLayer t p c s = some
      { pingpang := if s.pingpang = 0 then 1 else 0
        cur_params := s.cur_params + iadd (imul (imul (imul ch chp) k0) k0) ch
        events := s.events ++ Event.conv_fpga
          { input := if s.pingpang = 0 then p.bufferA else p.bufferB
            paramSlice := s.cur_params
            output := if s.pingpang = 0 then p.bufferB else p.bufferA
            layerIndex := c, rows := sh, cols := sh, channelReadWidth := t.ITILE,
            kernelSize := k, fanIn := chp, inputSections := Int.tdiv chp t.ITILE,
            outputChannels := ch, outputSections := Int.tdiv ch t.OTILE,
            weightShift := w_isec c, poolingDivisor := if pl then 4 else 1,
            poolingEnabled := pl } ::
          (if c = 1 then
            [Event.computing_check (if s.pingpang = 0 then p.bufferB else p.bufferA) c pl]
           else []) } := by
  by_cases h1 : c = 1
  · subst h1
    have hcp0 : t.CHNEL[0]? = some chp := hcp
    by_cases hpp : s.pingpang = 0 <;>
      simp [convLayer, hs, hc, hcp0, hk, hk0, hp, cdiv_of_ne_zero _ hi, cdiv_of_ne_zero _ ho, hpp]
  · by_cases hpp : s.pingpang = 0 <;>
      simp [convLayer, hs, hc, hcp, hk, hk0, hp, cdiv_of_ne_zero _ hi, cdiv_of_ne_zero _ ho,
        hc0, h1, hpp]

theorem convLayer_eq (t : Topology) (p : Pointers) (s : LoopState) {c : Nat}
    (hw : WellFormed t) (hc : c < t.CONV_LAYER_NUM) :
    convLayer t p c s = some (layerNext t p c s) := by
  obtain ⟨hS0, hC0, hS, hC, hK, hP, hI, hO⟩ := hw
  have hs : t.SHAPE[c]? = some (t.SHAPE[c]) := List.getElem?_eq_getElem (by omega)
  have hch : t.CHNEL[c]? = some (t.CHNEL[c]) := List.getElem?_eq_getElem (by omega)
  have hk : t.KERNL[c]? = some (t.KERNL[c]) := List.getElem?_eq_getElem (by omega)
  have hk0 : t.KERNL[0]? = some (t.KERNL[0]) := List.getElem?_eq_getElem (by omega)
  have hp : t.POOL[c]? = some (t.POOL[c]) := List.getElem?_eq_getElem (by omega)
  have hcp : t.CHNEL[c - 1]? = some (t.CHNEL[c - 1]) := List.getElem?_eq_getElem (by omega)
  by_cases h0 : c = 0
  · subst h0
    rw [convLayer_zero t p s hs hch hk hp hO]
    simp [layerNext, layerCall, advance, w_isec, hs, hch, hk, hp]
  · rw [convLayer_pos t p s c h0 hs hch hcp hk hk0 hp hI hO]
    simp [layerNext, layerCall, advance, h0, hs, hch, hk, hp, hk0, hcp]

theorem layerFacts_layerNext (t : Topology) (p : Pointers) (s : LoopState) {c : Nat}
    (hw : WellFormed t) (hc : c < t.CONV_LAYER_NUM) :
    LayerFacts t p c s (layerNext t p c s) (layerCall t p c s) := by
  obtain ⟨hS0, hC0, hS, hC, hK, hP, hI, hO⟩ := hw
  have hs : t.SHAPE[c]? = some (t.SHAPE[c]) := List.getElem?_eq_getElem (by omega)
  have hch : t.CHNEL[c]? = some (t.CHNEL[c]) := List.getElem?_eq_getElem (by omega)
  have hk : t.KERNL[c]? = some (t.KERNL[c]) := List.getElem?_eq_getElem (by omega)
  have hk0 : t.KERNL[0]? = some (t.KERNL[0]) := List.getElem?_eq_getElem (by omega)
  have hp : t.POOL[c]? = some (t.POOL[c]) := List.getElem?_eq_getElem (by omega)
  have hcp : t.CHNEL[c - 1]? = some (t.CHNEL[c - 1]) := List.getElem?_eq_getElem (by omega)
  by_cases h0 : c = 0
  · subst h0
    constructor <;> simp [layerNext, layerCall, advance, hs, hch, hk, hp]
  · constructor <;> simp [layerNext, layerCall, advance, h0, hs, hch, hk, hp, hcp, hk0]

/-! ## The whole loop -/

theorem convCalls_append (xs ys : List Event) :
    convCalls (xs ++ ys) = convCalls xs ++ convCalls ys := by
  induction xs with
  | nil => rfl
  | cons e es ih => cases e <;> simp [convCalls, ih]

theorem convLoop_eq (t : Topology) (p : Pointers) (hw : WellFormed t) :
    ∀ n, n ≤ t.CONV_LAYER_NUM → convLoop t p n = some (loopOf t p n)
  | 0, _ => rfl
  | n + 1, hn => by
    rw [convLoop, convLoop_eq t p hw n (by omega), Option.some_bind,
      convLayer_eq t p _ hw (by omega), loopOf]

theorem loopOf_pingpang (t : Topology) (p : Pointers) :
    ∀ n : Nat, (loopOf t p n).pingpang = ((n % 2 : Nat) : Int)
  | 0 => rfl
  | n + 1 => by
    have ih := loopOf_pingpang t p n
    by_cases h0 : n = 0
    · subst h0; simp [loopOf, layerNext]
    · rcases Nat.mod_two_eq_zero_or_one n with h | h
      · have h1 : (n + 1) % 2 = 1 := by omega
        simp [loopOf, layerNext, h0, ih, h, h1]
      · have h1 : (n + 1) % 2 = 0 := by omega
        simp [loopOf, layerNext, h0, ih, h, h1]

theorem loopOf_cur_params (t : Topology) (p : Pointers) :
    ∀ n : Nat, (loopOf t p n).cur_params = p.Params + ((List.range n).map (advance t)).sum
  | 0 => by simp [loopOf]
  | n + 1 => by
    simp [loopOf, layerNext, loopOf_cur_params t p n, List.range_succ, add_assoc]

theorem loopOf_calls (t : Topology) (p : Pointers) :
    ∀ n : Nat, convCalls (loopOf t p n).events =
      (List.range n).map (fun c => layerCall t p c (loopOf t p c))
  | 0 => rfl
  | n + 1 => by
    by_cases h1 : n = 1 <;>
      simp [loopOf, layerNext, convCalls_append, convCalls, loopOf_calls t p n,
        List.range_succ, h1]

theorem loopOf_call_at (t : Topology) (p : Pointers) {i n : Nat} (h : i < n) :
    (convCalls (loopOf t p n).events)[i]? = some (layerCall t p i (loopOf t p i)) := by
  simp [loopOf_calls, List.getElem?_map, List.getElem?_range h]

theorem fcLoop_eq (s : LoopState) : ∀ n : Nat, fcLoop n s = s
  | 0 => rfl
  | n + 1 => by rw [fcLoop, fcLoop_eq s n]

theorem cnn_fpga_eq (t : Topology) (p : Pointers) (hw : WellFormed t) :
    ∃ sh ch, t.SHAPE[0]? = some sh ∧ t.CHNEL[0]? = some ch ∧
      cnn_fpga t p = some
        { max_buf_size := imul (imul sh sh) ch
          pingpang := (loopOf t p t.CONV_LAYER_NUM).pingpang
          cur_params := (loopOf t p t.CONV_LAYER_NUM).cur_params
          events := (loopOf t p t.CONV_LAYER_NUM).events } := by
  have hS0 : 0 < t.SHAPE.length := hw.1
  have hC0 : 0 < t.CHNEL.length := hw.2.1
  have hs : t.SHAPE[0]? = some (t.SHAPE[0]) := List.getElem?_eq_getElem hS0
  have hc : t.CHNEL[0]? = some (t.CHNEL[0]) := List.getElem?_eq_getElem hC0
  refine ⟨_, _, hs, hc, ?_⟩
  simp [cnn_fpga, hs, hc, convLoop_eq t p hw _ le_rfl, fcLoop_eq]

/-- Every layer `i < CONV_LAYER_NUM` of a well-formed topology: the run
completes, the loop reaches iteration `i` and leaves it, and the `i`-th
`conv_fpga` call of the run is the one that iteration makes. -/
theorem run_layer (t : Topology) (p : Pointers) (hw : WellFormed t) {i : Nat}
    (hi : i < t.CONV_LAYER_NUM) :
    ∃ r s s1 a, cnn_fpga t p = some r ∧ convLoop t p i = some s ∧
      convLoop t p (i + 1) = some s1 ∧ convLayer t p i s = some s1 ∧
      (convCalls r.events)[i]? = some a ∧ s.pingpang = ((i % 2 : Nat) : Int) ∧
      s.cur_params = p.Params + ((List.range i).map (advance t)).sum ∧
      LayerFacts t p i s s1 a := by
  obtain ⟨sh, ch, -, -, hr⟩ := cnn_fpga_eq t p hw
  exact ⟨_, loopOf t p i, loopOf t p (i + 1), layerCall t p i (loopOf t p i), hr,
    convLoop_eq t p hw i (by omega), convLoop_eq t p hw (i + 1) (by omega),
    convLayer_eq t p _ hw hi, loopOf_call_at t p hi, loopOf_pingpang t p i,
    loopOf_cur_params t p i, layerFacts_layerNext t p _ hw hi⟩

/-- The buffers of the `i`-th `conv_fpga` call of a run, by the parity of `i`. -/
theorem run_call_buffers (t : Topology) (p : Pointers) (hw : WellFormed t) {i : Nat}
    (hi : i < t.CONV_LAYER_NUM) :
    ∃ r a, cnn_fpga t p = some r ∧ (convCalls r.events)[i]? = some a ∧
      a.input = (if i = 0 then p.In else if i % 2 = 1 then p.bufferB else p.bufferA) ∧
      a.output = (if i % 2 = 0 then p.bufferB else p.bufferA) := by
  obtain ⟨r, s, s1, a, hr, -, -, -, hcall, hping, -, hf⟩ := run_layer t p hw hi
  refine ⟨r, a, hr, hcall, ?_, ?_⟩
  · rw [hf.input, hping]
    by_cases h0 : i = 0
    · simp [h0]
    · rcases Nat.mod_two_eq_zero_or_one i with h | h <;> simp [h0, h]
  · rw [hf.output, hping]
    by_cases h0 : i = 0
    · simp [h0]
    · rcases Nat.mod_two_eq_zero_or_one i with h | h <;> simp [h0, h]

/-! ## The claims -/

/-- C1, evaluated on `netK` (kernel sizes 3, 5, 3): iteration 1 hands kernel size
5 to `conv_fpga` but moves `cur_params` by `8 * 4 * 3 * 3 + 8 = 296` elements,
computed with `KERNL[0]`, while the footprint of layer 1 is
`8 * 4 * 5^2 + 8 = 808`. -/
theorem C1_advance_ignores_layer_kernel :
    ∃ r a s1 s2, cnn_fpga netK ptrs = some r ∧ (convCalls r.events)[1]? = some a ∧
      a.kernelSize = 5 ∧
      convLoop netK ptrs 1 = some s1 ∧ convLoop netK ptrs 2 = some s2 ∧
      s2.cur_params - s1.cur_params = 296 ∧ footprint netK 1 = 808 :=
  ⟨_, _, _, _, rfl, rfl, by decide, rfl, rfl, by decide, by decide⟩

/-- C2: in a run on a well-formed topology the call for layer 0 writes to
`bufferB`; for `i >= 1` the call for layer `i` reads the buffer the call for
layer `i - 1` wrote and writes the other scratch buffer, and for `i >= 2` its
(input, output) pair is the swap of the pair of layer `i - 1`. -/
theorem C2_ping_pong_chain (t : Topology) (p : Pointers) (hw : WellFormed t) (i : Nat)
    (hi : i < t.CONV_LAYER_NUM) :
    ∃ r b, cnn_fpga t p = some r ∧ (convCalls r.events)[i]? = some b ∧
      (i = 0 → b.output = p.bufferB) ∧
      (1 ≤ i → ∃ a, (convCalls r.events)[i - 1]? = some a ∧
        b.input = a.output ∧
        (b.input = p.bufferA ∧ b.output = p.bufferB ∨
          b.input = p.bufferB ∧ b.output = p.bufferA) ∧
        (2 ≤ i → b.output = a.input)) := by
  obtain ⟨r, b, hr, hb, hbi, hbo⟩ := run_call_buffers t p hw hi
  refine ⟨r, b, hr, hb, ?_, ?_⟩
  · intro h0
    simp [hbo, h0]
  · intro h1
    obtain ⟨r0, a, hr0, ha, hai, hao⟩ :=
      run_call_buffers t p hw (show i - 1 < t.CONV_LAYER_NUM by omega)
    have hrr : r0 = r := Option.some.inj (hr0.symm.trans hr)
    subst hrr
    have hi0 : i ≠ 0 := by omega
    refine ⟨a, ha, ?_, ?_, ?_⟩
    · rw [hbi, hao]
      rcases Nat.mod_two_eq_zero_or_one i with h | h
      · have h2 : (i - 1) % 2 = 1 := by omega
        simp [hi0, h, h2]
      · have h2 : (i - 1) % 2 = 0 := by omega
        simp [hi0, h, h2]
    · rw [hbi, hbo]
      rcases Nat.mod_two_eq_zero_or_one i with h | h <;> simp [hi0, h]
    · intro h2i
      have hi1 : i - 1 ≠ 0 := by omega
      rw [hbo, hai]
      rcases Nat.mod_two_eq_zero_or_one i with h | h
      · have h2 : (i - 1) % 2 = 1 := by omega
        simp [hi1, h, h2]
      · have h2 : (i - 1) % 2 = 0 := by omega
        simp [hi1, h, h2]

/-- Witness of C2 on the scenario network at layer 1. -/
theorem C2_ping_pong_chain_witness :
    WellFormed (net2 4 4) ∧ 1 < (net2 4 4).CONV_LAYER_NUM ∧
    ∃ r b, cnn_fpga (net2 4 4) ptrs = some r ∧ (convCalls r.events)[1]? = some b ∧
      (1 = 0 → b.output = ptrs.bufferB) ∧
      (1 ≤ 1 → ∃ a, (convCalls r.events)[1 - 1]? = some a ∧
        b.input = a.output ∧
        (b.input = ptrs.bufferA ∧ b.output = ptrs.bufferB ∨
          b.input = ptrs.bufferB ∧ b.output = ptrs.bufferA) ∧
        (2 ≤ 1 → b.output = a.input)) :=
  ⟨by decide, by decide, C2_ping_pong_chain (net2 4 4) ptrs (by decide) 1 (by decide)⟩

/-- C3, evaluated on `netK` (kernel sizes 3, 5, 3): the parameter slice of layer
2 starts 408 elements after `Params`, inside the region `112 .. 920` of layer 1,
whereas the footprints of layers 0 and 1 sum to 920; the pointer after the last
layer is 992 elements after `Params`, whereas all footprints sum to 1504. -/
theorem C3_slices_overlap_on_netK :
    ∃ r a, cnn_fpga netK ptrs = some r ∧ (convCalls r.events)[2]? = some a ∧
      a.paramSlice - ptrs.Params = 408 ∧
      ((List.range 2).map (footprint netK)).sum = 920 ∧
      r.cur_params - ptrs.Params = 992 ∧
      ((List.range netK.CONV_LAYER_NUM).map (footprint netK)).sum = 1504 :=
  ⟨_, _, rfl, rfl, by decide, by decide, by decide, by decide⟩

/-- C4: the tiling arguments of the call for layer `i`: read width 3 for layer 0
and `ITILE` otherwise, input sections 1 for layer 0 and `CHNEL[i-1] / ITILE`
otherwise, output sections `CHNEL[i] / OTILE`, pooling divisor 4 if `POOL[i]` and
1 otherwise; when the tile widths divide the channel counts the section counts
are exact. -/
theorem C4_tiling_arguments (t : Topology) (p : Pointers) (hw : WellFormed t) (i : Nat)
    (hi : i < t.CONV_LAYER_NUM) :
    ∃ r a ch pl, cnn_fpga t p = some r ∧ (convCalls r.events)[i]? = some a ∧
      t.CHNEL[i]? = some ch ∧ t.POOL[i]? = some pl ∧
      a.channelReadWidth = (if i = 0 then 3 else t.ITILE) ∧
      (i = 0 → a.inputSections = 1) ∧
      (1 ≤ i → ∃ chp, t.CHNEL[i - 1]? = some chp ∧
        a.inputSections = Int.tdiv chp t.ITILE ∧
        (t.ITILE ∣ chp → a.inputSections * t.ITILE = chp)) ∧
      a.outputSections = Int.tdiv ch t.OTILE ∧
      (t.OTILE ∣ ch → a.outputSections * t.OTILE = ch) ∧
      a.poolingDivisor = (if pl then 4 else 1) := by
  obtain ⟨r, s, s1, a, hr, -, -, -, hcall, -, -, hf⟩ := run_layer t p hw hi
  refine ⟨r, a, a.outputChannels, a.poolingEnabled, hr, hcall, hf.chan, hf.pool, hf.width,
    ?_, ?_, hf.osec, ?_, hf.pdiv⟩
  · intro h0
    simp [hf.isec, h0]
  · intro h1
    have h0 : i ≠ 0 := by omega
    have hfan := hf.fanIn
    have hsec := hf.isec
    simp only [h0, if_false] at hfan hsec
    exact ⟨a.fanIn, hfan, hsec, fun hd => by rw [hsec]; exact Int.tdiv_mul_cancel hd⟩
  · intro hd
    rw [hf.osec]
    exact Int.tdiv_mul_cancel hd

/-- Witness of C4 on the scenario network at layer 1. -/
theorem C4_tiling_arguments_witness :
    WellFormed (net2 4 4) ∧ 1 < (net2 4 4).CONV_LAYER_NUM ∧
    ∃ r a ch pl, cnn_fpga (net2 4 4) ptrs = some r ∧ (convCalls r.events)[1]? = some a ∧
      (net2 4 4).CHNEL[1]? = some ch ∧ (net2 4 4).POOL[1]? = some pl ∧
      a.channelReadWidth = (if 1 = 0 then 3 else (net2 4 4).ITILE) ∧
      (1 = 0 → a.inputSections = 1) ∧
      (1 ≤ 1 → ∃ chp, (net2 4 4).CHNEL[1 - 1]? = some chp ∧
        a.inputSections = Int.tdiv chp (net2 4 4).ITILE ∧
        ((net2 4 4).ITILE ∣ chp → a.inputSections * (net2 4 4).ITILE = chp)) ∧
      a.outputSections = Int.tdiv ch (net2 4 4).OTILE ∧
      ((net2 4 4).OTILE ∣ ch → a.outputSections * (net2 4 4).OTILE = ch) ∧
      a.poolingDivisor = (if pl then 4 else 1) :=
  ⟨by decide, by decide, C4_tiling_arguments (net2 4 4) ptrs (by decide) 1 (by decide)⟩

/-- C5, evaluated on `netWide` (`SHAPE = [32, 32]`, `CHNEL = [16, 32]`): both
scratch buffers are sized `32 * 32 * 16 = 16384` elements, the footprint of layer
0, which is less than the footprint `32^2 * 32 = 32768` of layer 1. -/
theorem C5_max_buf_size_is_layer0_only :
    ∃ r, cnn_fpga netWide ptrs = some r ∧ r.max_buf_size = 16384 ∧
      netWide.SHAPE[1]? = some 32 ∧ netWide.CHNEL[1]? = some 32 ∧
      r.max_buf_size < 32 ^ 2 * 32 :=
  ⟨_, rfl, by decide, by decide, by decide, by decide⟩

/-- C6, refuted on `netUneven` (`CHNEL[0] = 12`, `ITILE = 8`, and 8 does not
divide 12): the run completes and the call for layer 1 is made with the
truncated quotient `12 / 8 = 1` as its input section count. -/
theorem C6_truncated_call_on_netUneven :
    netUneven.CHNEL[0]? = some 12 ∧ ¬ (netUneven.ITILE ∣ 12) ∧
    ∃ r a, cnn_fpga netUneven ptrs = some r ∧ (convCalls r.events)[1]? = some a ∧
      a.inputSections = 1 ∧ a.inputSections * netUneven.ITILE ≠ 12 :=
  ⟨by decide, by decide, _, _, rfl, rfl, by decide, by decide⟩

/-- C6, amended: when `ITILE` does not divide `CHNEL[i-1]` for a layer `i >= 1`,
no error is raised; the run completes and the call for layer `i` is made with the
truncated quotient `CHNEL[i-1] / ITILE` as its input section count, which times
`ITILE` differs from `CHNEL[i-1]`. -/
theorem C6_uneven_channels_truncate (t : Topology) (p : Pointers) (hw : WellFormed t)
    (i : Nat) (h1 : 1 ≤ i) (hi : i < t.CONV_LAYER_NUM) (chp : Int)
    (hch : t.CHNEL[i - 1]? = some chp) (hnd : ¬ t.ITILE ∣ chp) :
    ∃ r a, cnn_fpga t p = some r ∧ (convCalls r.events)[i]? = some a ∧
      a.inputSections = Int.tdiv chp t.ITILE ∧ a.inputSections * t.ITILE ≠ chp := by
  obtain ⟨r, s, s1, a, hr, -, -, -, hcall, -, -, hf⟩ := run_layer t p hw hi
  have h0 : i ≠ 0 := by omega
  have hfan := hf.fanIn
  have hsec := hf.isec
  simp only [h0, if_false] at hfan hsec
  have hfc : a.fanIn = chp := Option.some.inj (hfan.symm.trans hch)
  rw [hfc] at hsec
  exact ⟨r, a, hr, hcall, hsec, fun hmul => hnd (Dvd.intro_left _ hmul)⟩

/-- Witness of the amended C6 on `netUneven` at layer 1. -/
theorem C6_uneven_channels_truncate_witness :
    WellFormed netUneven ∧ 1 < netUneven.CONV_LAYER_NUM ∧
    netUneven.CHNEL[1 - 1]? = some 12 ∧ ¬ (netUneven.ITILE ∣ 12) ∧
    ∃ r a, cnn_fpga netUneven ptrs = some r ∧ (convCalls r.events)[1]? = some a ∧
      a.inputSections = Int.tdiv 12 netUneven.ITILE ∧
      a.inputSections * netUneven.ITILE ≠ 12 :=
  ⟨by decide, by decide, by decide, by decide,
    C6_uneven_channels_truncate netUneven ptrs (by decide) 1 (by decide) (by decide) 12
      (by decide) (by decide)⟩

/-- C7, refuted on the scenario network: its footprints sum to 408, and with a
parameter buffer of 407 elements the run, which is not given the length, still
completes both layers and leaves `cur_params` 408 elements after `Params`, past
the end of the buffer. -/
theorem C7_no_overrun_error_on_net2 :
    ((List.range (net2 4 4).CONV_LAYER_NUM).map (footprint (net2 4 4))).sum = 408 ∧
    ∃ r, cnn_fpga (net2 4 4) ptrs = some r ∧ (convCalls r.events).length = 2 ∧
      ptrs.Params + (408 - 1) < r.cur_params :=
  ⟨by decide, _, rfl, by decide, by decide⟩

/-- C7, amended: `cnn_fpga` is given no length for `Params` and checks no bound.
Whenever the parameter buffer holds `paramsLen` elements, fewer than the loop
adds to `cur_params` in total (the sum of the 32-bit increments of lines 124 and
185-186), the run still completes, makes all `CONV_LAYER_NUM` kernel calls, and
ends with `cur_params` past the end of the buffer. -/
theorem C7_cursor_runs_past_short_buffer (t : Topology) (p : Pointers) (paramsLen : Int)
    (hw : WellFormed t)
    (hshort : paramsLen < ((List.range t.CONV_LAYER_NUM).map (advance t)).sum) :
    ∃ r, cnn_fpga t p = some r ∧ (convCalls r.events).length = t.CONV_LAYER_NUM ∧
      r.cur_params = p.Params + ((List.range t.CONV_LAYER_NUM).map (advance t)).sum ∧
      p.Params + paramsLen < r.cur_params := by
  obtain ⟨sh, ch, -, -, hr⟩ := cnn_fpga_eq t p hw
  refine ⟨_, hr, ?_, ?_, ?_⟩
  · simp [loopOf_calls]
  · exact loopOf_cur_params t p _
  · show p.Params + paramsLen < (loopOf t p t.CONV_LAYER_NUM).cur_params
    rw [loopOf_cur_params]
    exact Int.add_lt_add_left hshort _

/-- Witness of the amended C7 on the scenario network with a 407-element
parameter buffer. -/
theorem C7_cursor_runs_past_short_buffer_witness :
    WellFormed (net2 4 4) ∧
    (407 : Int) < ((List.range (net2 4 4).CONV_LAYER_NUM).map (advance (net2 4 4))).sum ∧
    ∃ r, cnn_fpga (net2 4 4) ptrs = some r ∧
      (convCalls r.events).length = (net2 4 4).CONV_LAYER_NUM ∧
      r.cur_params = ptrs.Params +
        ((List.range (net2 4 4).CONV_LAYER_NUM).map (advance (net2 4 4))).sum ∧
      ptrs.Params + 407 < r.cur_params :=
  ⟨by decide, by decide,
    C7_cursor_runs_past_short_buffer (net2 4 4) ptrs 407 (by decide) (by decide)⟩

theorem wellFormed_net2 {ITILE OTILE : Int} (hI : ITILE ≠ 0) (hO : OTILE ≠ 0) :
    WellFormed (net2 ITILE OTILE) := by
  refine ⟨?_, ?_, ?_, ?_, ?_, ?_, hI, hO⟩ <;> simp [net2]

/-- C8: on the scenario network (`channels = [4, 8]`, `kernel = [3, 3]`,
`shape = [32, 16]`, `pooling = [true, false]`, two convolution layers), for any
non-zero tile widths, `cur_params` starts at offset 0 from `Params`, is at offset
112 after layer 0 and at offset 408 after layer 1. -/
theorem C8_scenario_cursor (p : Pointers) (ITILE OTILE : Int) (hI : ITILE ≠ 0)
    (hO : OTILE ≠ 0) :
    ∃ s0 s1 s2, convLoop (net2 ITILE OTILE) p 0 = some s0 ∧
      convLoop (net2 ITILE OTILE) p 1 = some s1 ∧
      convLoop (net2 ITILE OTILE) p 2 = some s2 ∧
      s0.cur_params - p.Params = 0 ∧ s1.cur_params - p.Params = 112 ∧
      s2.cur_params - p.Params = 408 := by
  have hw := wellFormed_net2 hI hO
  have h2 : (net2 ITILE OTILE).CONV_LAYER_NUM = 2 := rfl
  refine ⟨_, _, _, convLoop_eq _ p hw 0 (by omega), convLoop_eq _ p hw 1 (by omega),
    convLoop_eq _ p hw 2 (by omega), ?_, ?_, ?_⟩
  · simp [loopOf]
  · rw [loopOf_cur_params]
    simp [List.range_succ, advance, net2]
    decide
  · rw [loopOf_cur_params]
    simp [List.range_succ, advance, net2]
    decide

/-- Witness of C8 with both tile widths 4. -/
theorem C8_scenario_cursor_witness :
    (4 : Int) ≠ 0 ∧
    ∃ s0 s1 s2, convLoop (net2 4 4) ptrs 0 = some s0 ∧
      convLoop (net2 4 4) ptrs 1 = some s1 ∧
      convLoop (net2 4 4) ptrs 2 = some s2 ∧
      s0.cur_params - ptrs.Params = 0 ∧ s1.cur_params - ptrs.Params = 112 ∧
      s2.cur_params - ptrs.Params = 408 :=
  ⟨by decide, C8_scenario_cursor ptrs 4 4 (by decide) (by decide)⟩

/-- C9: one iteration `c` of the loop from any state `s` makes exactly one
`conv_fpga` call. For `c = 0`, whatever `s.pingpang` is, the call reads `In`,
writes `bufferB`, and `pingpang` becomes 1. For `c >= 1`, `pingpang = 0` gives
(input, output) = (`bufferA`, `bufferB`) and new value 1, and `pingpang = 1`
gives (`bufferB`, `bufferA`) and new value 0. -/
theorem C9_select_and_toggle (t : Topology) (p : Pointers) (hw : WellFormed t) (c : Nat)
    (hc : c < t.CONV_LAYER_NUM) (s : LoopState) :
    ∃ s1 a rest, convLayer t p c s = some s1 ∧
      s1.events = s.events ++ Event.conv_fpga a :: rest ∧ convCalls rest = [] ∧
      (c = 0 → a.input = p.In ∧ a.output = p.bufferB ∧ s1.pingpang = 1) ∧
      (1 ≤ c → s.pingpang = 0 →
        a.input = p.bufferA ∧ a.output = p.bufferB ∧ s1.pingpang = 1) ∧
      (1 ≤ c → s.pingpang = 1 →
        a.input = p.bufferB ∧ a.output = p.bufferA ∧ s1.pingpang = 0) := by
  have hf := layerFacts_layerNext t p s hw hc
  refine ⟨_, _, _, convLayer_eq t p s hw hc, hf.events, ?_, ?_, ?_, ?_⟩
  · by_cases h1 : c = 1 <;> simp [h1, convCalls]
  · intro h0
    refine ⟨?_, ?_, ?_⟩
    · rw [hf.input, if_pos h0]
    · rw [hf.output, if_pos h0]
    · rw [hf.ping, if_pos h0]
  · intro h1 hp
    have h0 : c ≠ 0 := by omega
    refine ⟨?_, ?_, ?_⟩
    · rw [hf.input, if_neg h0, if_pos hp]
    · rw [hf.output, if_neg h0, if_pos hp]
    · rw [hf.ping, if_neg h0, if_pos hp]
  · intro h1 hp
    have h0 : c ≠ 0 := by omega
    have hp0 : s.pingpang ≠ 0 := by rw [hp]; decide
    refine ⟨?_, ?_, ?_⟩
    · rw [hf.input, if_neg h0, if_neg hp0]
    · rw [hf.output, if_neg h0, if_neg hp0]
    · rw [hf.ping, if_neg h0, if_neg hp0]

/-- Witness of C9 on the scenario network: iteration 1 from the state left by
iteration 0 (`pingpang = 1`). -/
theorem C9_select_and_toggle_witness :
    WellFormed (net2 4 4) ∧ 1 < (net2 4 4).CONV_LAYER_NUM ∧
    ∃ s1 a rest,
      convLayer (net2 4 4) ptrs 1 { pingpang := 1, cur_params := 112, events := [] }
        = some s1 ∧
      s1.events = [] ++ Event.conv_fpga a :: rest ∧ convCalls rest = [] ∧
      (1 = 0 → a.input = ptrs.In ∧ a.output = ptrs.bufferB ∧ s1.pingpang = 1) ∧
      (1 ≤ 1 → (1 : Int) = 0 →
        a.input = ptrs.bufferA ∧ a.output = ptrs.bufferB ∧ s1.pingpang = 1) ∧
      (1 ≤ 1 → (1 : Int) = 1 →
        a.input = ptrs.bufferB ∧ a.output = ptrs.bufferA ∧ s1.pingpang = 0) :=
  ⟨by decide, by decide,
    C9_select_and_toggle (net2 4 4) ptrs (by decide) 1 (by decide)
      { pingpang := 1, cur_params := 112, events := [] }⟩

/-- C10: the scalar arguments of the call for layer `i` come from the tables at
index `i`: layer index `i`, rows and columns `SHAPE[i]`, kernel size `KERNL[i]`,
fan-in 3 for layer 0 and `CHNEL[i-1]` otherwise, output channels `CHNEL[i]`,
pooling flag `POOL[i]`; the parameter slice is the value `cur_params` has on
entry to iteration `i`, before that iteration advances it. -/
theorem C10_call_arguments (t : Topology) (p : Pointers) (hw : WellFormed t) (i : Nat)
    (hi : i < t.CONV_LAYER_NUM) :
    ∃ r s a, cnn_fpga t p = some r ∧ convLoop t p i = some s ∧
      (convCalls r.events)[i]? = some a ∧
      a.layerIndex = i ∧
      t.SHAPE[i]? = some a.rows ∧ t.SHAPE[i]? = some a.cols ∧
      t.KERNL[i]? = some a.kernelSize ∧
      (i = 0 → a.fanIn = 3) ∧ (1 ≤ i → t.CHNEL[i - 1]? = some a.fanIn) ∧
      t.CHNEL[i]? = some a.outputChannels ∧
      t.POOL[i]? = some a.poolingEnabled ∧
      a.paramSlice = s.cur_params := by
  obtain ⟨r, s, s1, a, hr, hs, -, -, hcall, -, -, hf⟩ := run_layer t p hw hi
  refine ⟨r, s, a, hr, hs, hcall, hf.layer, hf.rows, hf.cols, hf.kernel, ?_, ?_, hf.chan,
    hf.pool, hf.slice⟩
  · intro h0
    have hfan := hf.fanIn
    simpa [h0] using hfan
  · intro h1
    have h0 : i ≠ 0 := by omega
    have hfan := hf.fanIn
    simpa [h0] using hfan

/-- Witness of C10 on the scenario network at layer 1. -/
theorem C10_call_arguments_witness :
    WellFormed (net2 4 4) ∧ 1 < (net2 4 4).CONV_LAYER_NUM ∧
    ∃ r s a, cnn_fpga (net2 4 4) ptrs = some r ∧ convLoop (net2 4 4) ptrs 1 = some s ∧
      (convCalls r.events)[1]? = some a ∧
      a.layerIndex = ((1 : Nat) : Int) ∧
      (net2 4 4).SHAPE[1]? = some a.rows ∧ (net2 4 4).SHAPE[1]? = some a.cols ∧
      (net2 4 4).KERNL[1]? = some a.kernelSize ∧
      (1 = 0 → a.fanIn = 3) ∧ (1 ≤ 1 → (net2 4 4).CHNEL[1 - 1]? = some a.fanIn) ∧
      (net2 4 4).CHNEL[1]? = some a.outputChannels ∧
      (net2 4 4).POOL[1]? = some a.poolingEnabled ∧
      a.paramSlice = s.cur_params :=
  ⟨by decide, by decide, C10_call_arguments (net2 4 4) ptrs (by decide) 1 (by decide)⟩

theorem checkCalls_append (xs ys : List Event) :
    checkCalls (xs ++ ys) = checkCalls xs ++ checkCalls ys := by
  induction xs with
  | nil => rfl
  | cons e es ih => cases e <;> simp [checkCalls, ih]

/-- From the third iteration on, the event list starts with the two kernel calls
of layers 0 and 1 and the check, and holds no other check. -/
theorem loopOf_events (t : Topology) (p : Pointers) :
    ∀ k : Nat, ∃ rest, (loopOf t p (k + 2)).events =
      Event.conv_fpga (layerCall t p 0 (loopOf t p 0)) ::
      Event.conv_fpga (layerCall t p 1 (loopOf t p 1)) ::
      Event.computing_check (layerCall t p 1 (loopOf t p 1)).output 1 (t.POOL.getD 1 false) ::
      rest ∧ checkCalls rest = []
  | 0 => ⟨[], by simp [loopOf, layerNext, layerCall], rfl⟩
  | k + 1 => by
    obtain ⟨rest, hev, hrest⟩ := loopOf_events t p k
    refine ⟨rest ++ [Event.conv_fpga (layerCall t p (k + 2) (loopOf t p (k + 2)))], ?_, ?_⟩
    · have h1 : k + 2 ≠ 1 := by omega
      have hstep : loopOf t p (k + 1 + 2) = layerNext t p (k + 2) (loopOf t p (k + 2)) := rfl
      rw [hstep]
      simp only [layerNext, h1, if_false, hev]
      rfl
    · simp [checkCalls_append, hrest, checkCalls]

/-- C11: when `CONV_LAYER_NUM >= 2` a run calls `computing_check` exactly once.
The call comes directly after the kernel call of layer 1, before any later
kernel call, and its arguments are the buffer the kernel call of layer 1 wrote
(which is `pingpang == 0 ? bufferA : bufferB` at that point), the layer index 1
and `POOL[1]`. -/
theorem C11_single_check_after_layer1 (t : Topology) (p : Pointers) (hw : WellFormed t)
    (h2 : 2 ≤ t.CONV_LAYER_NUM) :
    ∃ r s2 a0 a1 pl rest, cnn_fpga t p = some r ∧ convLoop t p 2 = some s2 ∧
      t.POOL[1]? = some pl ∧
      r.events = Event.conv_fpga a0 :: Event.conv_fpga a1 ::
        Event.computing_check a1.output 1 pl :: rest ∧
      checkCalls rest = [] ∧
      checkCalls r.events = [(a1.output, 1, pl)] ∧
      a0.layerIndex = 0 ∧ a1.layerIndex = 1 ∧
      (if s2.pingpang = 0 then p.bufferA else p.bufferB) = a1.output := by
  obtain ⟨sh, ch, -, -, hr⟩ := cnn_fpga_eq t p hw
  obtain ⟨k, hk⟩ : ∃ k, t.CONV_LAYER_NUM = k + 2 := ⟨t.CONV_LAYER_NUM - 2, by omega⟩
  obtain ⟨rest, hev, hrest⟩ := loopOf_events t p k
  have hP : 1 < t.POOL.length := by
    have := hw.2.2.2.2.2.1
    omega
  have hpl : t.POOL[1]? = some (t.POOL[1]) := List.getElem?_eq_getElem hP
  have hgd : t.POOL.getD 1 false = t.POOL[1] := by
    simp [List.getD_eq_getElem?_getD, hpl]
  rw [hgd] at hev
  refine ⟨_, loopOf t p 2, layerCall t p 0 (loopOf t p 0), layerCall t p 1 (loopOf t p 1), _,
    rest, hr, convLoop_eq t p hw 2 h2, hpl, ?_, hrest, ?_, ?_, ?_, ?_⟩
  · show (loopOf t p t.CONV_LAYER_NUM).events = _
    rw [hk]
    exact hev
  · show checkCalls (loopOf t p t.CONV_LAYER_NUM).events = _
    rw [hk, hev]
    simp [checkCalls, hrest]
  · simp [layerCall]
  · simp [layerCall]
  · simp [loopOf, layerNext, layerCall]

/-- Witness of C11 on the scenario network. -/
theorem C11_single_check_after_layer1_witness :
    WellFormed (net2 4 4) ∧ 2 ≤ (net2 4 4).CONV_LAYER_NUM ∧
    ∃ r s2 a0 a1 pl rest, cnn_fpga (net2 4 4) ptrs = some r ∧
      convLoop (net2 4 4) ptrs 2 = some s2 ∧
      (net2 4 4).POOL[1]? = some pl ∧
      r.events = Event.conv_fpga a0 :: Event.conv_fpga a1 ::
        Event.computing_check a1.output 1 pl :: rest ∧
      checkCalls rest = [] ∧
      checkCalls r.events = [(a1.output, 1, pl)] ∧
      a0.layerIndex = 0 ∧ a1.layerIndex = 1 ∧
      (if s2.pingpang = 0 then ptrs.bufferA else ptrs.bufferB) = a1.output :=
  ⟨by decide, by decide, C11_single_check_after_layer1 (net2 4 4) ptrs (by decide) (by decide)⟩

theorem w_isec_closed (c : Nat) :
    w_isec c =
      if c = 1 ∨ c = 2 ∨ c = 4 ∨ c = 5 ∨ c = 6 then 2
      else if c = 3 then 3
      else if 7 ≤ c ∧ c ≤ 12 then 1
      else 0 := by
  by_cases h : c ≤ 12
  · interval_cases c <;> rfl
  · obtain ⟨k, rfl⟩ : ∃ k, c = k + 13 := ⟨c - 13, by omega⟩
    have h1 : w_isec (k + 13) = 0 := rfl
    rw [h1]
    have h2 : ¬ (k + 13 = 1 ∨ k + 13 = 2 ∨ k + 13 = 4 ∨ k + 13 = 5 ∨ k + 13 = 6) := by omega
    have h3 : ¬ (k + 13 = 3) := by omega
    have h4 : ¬ (7 ≤ k + 13 ∧ k + 13 ≤ 12) := by omega
    rw [if_neg h2, if_neg h3, if_neg h4]

/-- C12: the weight shift handed to the kernel for layer `i` is `w_isec i`, a
function of the layer index only, whatever the tables hold. It is 2 for layers
1, 2, 4, 5, 6, it is 3 for layer 3, it is 1 for layers 7 to 12, and it is 0 for
layer 0 and for every index above 12; so its non-zero values are exactly 1, 2
and 3. -/
theorem C12_weight_shift_tiers (t : Topology) (p : Pointers) (hw : WellFormed t) (i : Nat)
    (hi : i < t.CONV_LAYER_NUM) :
    (∃ r a, cnn_fpga t p = some r ∧ (convCalls r.events)[i]? = some a ∧
      a.weightShift = w_isec i) ∧
    (∀ c : Nat, w_isec c =
      if c = 1 ∨ c = 2 ∨ c = 4 ∨ c = 5 ∨ c = 6 then 2
      else if c = 3 then 3
      else if 7 ≤ c ∧ c ≤ 12 then 1
      else 0) ∧
    (∀ v : Int, (v ≠ 0 ∧ ∃ c : Nat, w_isec c = v) ↔ (v = 1 ∨ v = 2 ∨ v = 3)) := by
  refine ⟨?_, w_isec_closed, ?_⟩
  · obtain ⟨r, s, s1, a, hr, -, -, -, hcall, -, -, hf⟩ := run_layer t p hw hi
    exact ⟨r, a, hr, hcall, hf.shift⟩
  · intro v
    constructor
    · rintro ⟨hv, c, rfl⟩
      rw [w_isec_closed] at hv ⊢
      split_ifs at hv ⊢ <;> simp at hv ⊢
    · rintro (rfl | rfl | rfl)
      · exact ⟨by decide, 7, rfl⟩
      · exact ⟨by decide, 1, rfl⟩
      · exact ⟨by decide, 3, rfl⟩

/-- Witness of C12 on the sample 13-layer topology at layer 3. -/
theorem C12_weight_shift_tiers_witness :
    WellFormed net13 ∧ 3 < net13.CONV_LAYER_NUM ∧
    ((∃ r a, cnn_fpga net13 ptrs = some r ∧ (convCalls r.events)[3]? = some a ∧
      a.weightShift = w_isec 3) ∧
    (∀ c : Nat, w_isec c =
      if c = 1 ∨ c = 2 ∨ c = 4 ∨ c = 5 ∨ c = 6 then 2
      else if c = 3 then 3
      else if 7 ≤ c ∧ c ≤ 12 then 1
      else 0) ∧
    (∀ v : Int, (v ≠ 0 ∧ ∃ c : Nat, w_isec c = v) ↔ (v = 1 ∨ v = 2 ∨ v = 3))) :=
  ⟨by decide, by decide, C12_weight_shift_tiers net13 ptrs (by decide) 3 (by decide)⟩

/-- C13: a run makes exactly `CONV_LAYER_NUM` kernel calls, and their layer-index
arguments, in call order, are `0, 1, ..., CONV_LAYER_NUM - 1`. -/
theorem C13_calls_in_layer_order (t : Topology) (p : Pointers) (hw : WellFormed t) :
    ∃ r, cnn_fpga t p = some r ∧
      (convCalls r.events).length = t.CONV_LAYER_NUM ∧
      (convCalls r.events).map (fun a => a.layerIndex) =
        (List.range t.CONV_LAYER_NUM).map (fun c : Nat => (c : Int)) := by
  obtain ⟨sh, ch, -, -, hr⟩ := cnn_fpga_eq t p hw
  refine ⟨_, hr, ?_, ?_⟩
  · simp [loopOf_calls]
  · show (convCalls (loopOf t p t.CONV_LAYER_NUM).events).map (fun a => a.layerIndex) = _
    rw [loopOf_calls, List.map_map]
    rfl

/-- Witness of C13 on the sample 13-layer topology. -/
theorem C13_calls_in_layer_order_witness :
    WellFormed net13 ∧
    ∃ r, cnn_fpga net13 ptrs = some r ∧
      (convCalls r.events).length = net13.CONV_LAYER_NUM ∧
      (convCalls r.events).map (fun a => a.layerIndex) =
        (List.range net13.CONV_LAYER_NUM).map (fun c : Nat => (c : Int)) :=
  ⟨by decide, C13_calls_in_layer_order net13 ptrs (by decide)⟩

theorem wrap32_of_inInt {x : Int} (h : InInt x) : wrap32 x = x := by
  obtain ⟨h1, h2⟩ := h
  unfold wrap32
  omega

theorem wrap32_add_mul (x q : Int) : wrap32 (x + 4294967296 * q) = wrap32 x := by
  unfold wrap32
  omega

theorem wrap32_eq_add_mul (x : Int) : ∃ q : Int, wrap32 x = x + 4294967296 * q :=
  ⟨-((x + 2147483648) / 4294967296), by unfold wrap32; omega⟩

theorem wrap32_mul_left (a b : Int) : wrap32 (wrap32 a * b) = wrap32 (a * b) := by
  obtain ⟨q, hq⟩ := wrap32_eq_add_mul a
  have h : (a + 4294967296 * q) * b = a * b + 4294967296 * (q * b) := by ring
  rw [hq, h, wrap32_add_mul]

theorem wrap32_add_left (a b : Int) : wrap32 (wrap32 a + b) = wrap32 (a + b) := by
  obtain ⟨q, hq⟩ := wrap32_eq_add_mul a
  have h : a + 4294967296 * q + b = a + b + 4294967296 * q := by ring
  rw [hq, h, wrap32_add_mul]

/-- The 32-bit value of `a * b * c * d + e`, whether formed step by step in `int`
or reduced once at the end. -/
theorem iadd_imul_eq (a b c d e : Int) :
    iadd (imul (imul (imul a b) c) d) e = wrap32 (a * b * c * d + e) := by
  unfold iadd imul
  rw [wrap32_mul_left (a * b) c, wrap32_mul_left (a * b * c) d,
    wrap32_add_left (a * b * c * d) e]

theorem advance_eq_footprint (t : Topology) {c : Nat}
    (hk : t.KERNL[c]? = t.KERNL[0]?) (hfit : InInt (footprint t c)) :
    advance t c = footprint t c := by
  have hg : t.KERNL.getD c 0 = t.KERNL.getD 0 0 := by
    simp [List.getD_eq_getElem?_getD, hk]
  have hw : advance t c = wrap32 (footprint t c) := by
    by_cases h0 : c = 0
    · subst h0
      simp only [advance, footprint, fan_in, if_true, iadd_imul_eq]
      congr 1
      ring
    · simp only [advance, footprint, fan_in, h0, if_false, hg, iadd_imul_eq]
      congr 1
      ring
  rw [hw, wrap32_of_inInt hfit]

/-- C14, refuted on `netBig` (all kernels 3x3, `CHNEL = [65536, 65536, 4]`): at
layer 1 the 32-bit product `CHNEL[1] * CHNEL[0]` is 0, the advance is 65536 and
`cur_params` ends 4259844 elements after `Params`, while the reference
trajectory ends at 38658965508. -/
theorem C14_cursor_wraps_on_netBig :
    WellFormed netBig ∧
    (∀ i, i < netBig.CONV_LAYER_NUM → netBig.KERNL[i]? = netBig.KERNL[0]?) ∧
    ∃ s1 s2 s3, convLoop netBig ptrs 1 = some s1 ∧ convLoop netBig ptrs 2 = some s2 ∧
      convLoop netBig ptrs 3 = some s3 ∧
      s2.cur_params - s1.cur_params = 65536 ∧ footprint netBig 1 = 38654771200 ∧
      s3.cur_params - ptrs.Params = 4259844 ∧
      refCursor netBig ptrs.Params 3 = 38658965508 :=
  ⟨by decide, by decide, _, _, _, rfl, rfl, rfl, by decide, by decide, by decide, by decide⟩

/-- C14, amended: when every convolution layer has the kernel size of layer 0
and the footprint `channels[i] * fan_in[i] * kernel[i]^2 + channels[i]` of every
layer is a value of 32-bit `int`, the value of `cur_params` on entry to every
iteration `n <= CONV_LAYER_NUM` equals the reference trajectory
`cursor_0 = Params`, `cursor_(i+1) = cursor_i + footprint(i)`. -/
theorem C14_cursor_refines_reference (t : Topology) (p : Pointers) (hw : WellFormed t)
    (hk : ∀ i, i < t.CONV_LAYER_NUM → t.KERNL[i]? = t.KERNL[0]?)
    (hfit : ∀ i, i < t.CONV_LAYER_NUM → InInt (footprint t i)) (n : Nat)
    (hn : n ≤ t.CONV_LAYER_NUM) :
    ∃ s, convLoop t p n = some s ∧ s.cur_params = refCursor t p.Params n := by
  refine ⟨_, convLoop_eq t p hw n hn, ?_⟩
  induction n with
  | zero => rfl
  | succ m ih =>
    have hm : m < t.CONV_LAYER_NUM := by omega
    have hstep : loopOf t p (m + 1) = layerNext t p m (loopOf t p m) := rfl
    rw [hstep]
    simp only [layerNext, refCursor]
    rw [ih (by omega), advance_eq_footprint t (hk m hm) (hfit m hm)]

/-- Witness of the amended C14 on the scenario network after both layers. -/
theorem C14_cursor_refines_reference_witness :
    WellFormed (net2 4 4) ∧
    (∀ i, i < (net2 4 4).CONV_LAYER_NUM → (net2 4 4).KERNL[i]? = (net2 4 4).KERNL[0]?) ∧
    (∀ i, i < (net2 4 4).CONV_LAYER_NUM → InInt (footprint (net2 4 4) i)) ∧
    2 ≤ (net2 4 4).CONV_LAYER_NUM ∧
    ∃ s, convLoop (net2 4 4) ptrs 2 = some s ∧
      s.cur_params = refCursor (net2 4 4) ptrs.Params 2 :=
  ⟨by decide, by decide, by decide, by decide,
    C14_cursor_refines_reference (net2 4 4) ptrs (by decide) (by decide) (by decide) 2
      (by decide)⟩

/-- After iteration `i` of a run, `pingpang` and the buffer the kernel call of
layer `i` wrote, by the parity of `i`. -/
theorem run_parity (t : Topology) (p : Pointers) (hw : WellFormed t) {i : Nat}
    (hi : i < t.CONV_LAYER_NUM) :
    ∃ r s1 a, cnn_fpga t p = some r ∧ convLoop t p (i + 1) = some s1 ∧
      (convCalls r.events)[i]? = some a ∧
      s1.pingpang = (if i % 2 = 0 then 1 else 0) ∧
      a.output = (if i % 2 = 0 then p.bufferB else p.bufferA) := by
  obtain ⟨r, s, s1, a, hr, -, hs1, -, hcall, hping, -, hf⟩ := run_layer t p hw hi
  refine ⟨r, s1, a, hr, hs1, hcall, ?_, ?_⟩
  · rw [hf.ping, hping]
    by_cases h0 : i = 0
    · simp [h0]
    · rcases Nat.mod_two_eq_zero_or_one i with h | h <;> simp [h0, h]
  · rw [hf.output, hping]
    by_cases h0 : i = 0
    · simp [h0]
    · rcases Nat.mod_two_eq_zero_or_one i with h | h <;> simp [h0, h]

/-- C15: after every completed layer `i < CONV_LAYER_NUM`, layer 0 included, the
expression `pingpang == 0 ? bufferA : bufferB` is the buffer the kernel call of
layer `i` wrote, and `pingpang` is 0 or 1. When the two scratch buffers are
distinct allocations, `pingpang = 1` exactly when that buffer is `bufferB` and
`pingpang = 0` exactly when it is `bufferA`. -/
theorem C15_pingpang_names_live_buffer (t : Topology) (p : Pointers) (hw : WellFormed t)
    (i : Nat) (hi : i < t.CONV_LAYER_NUM) :
    ∃ r s1 a, cnn_fpga t p = some r ∧ convLoop t p (i + 1) = some s1 ∧
      (convCalls r.events)[i]? = some a ∧
      (if s1.pingpang = 0 then p.bufferA else p.bufferB) = a.output ∧
      (s1.pingpang = 0 ∨ s1.pingpang = 1) ∧
      (p.bufferA ≠ p.bufferB →
        (s1.pingpang = 1 ↔ a.output = p.bufferB) ∧
        (s1.pingpang = 0 ↔ a.output = p.bufferA)) := by
  obtain ⟨r, s1, a, hr, hs1, hcall, hping, hout⟩ := run_parity t p hw hi
  refine ⟨r, s1, a, hr, hs1, hcall, ?_, ?_, ?_⟩
  · rw [hping, hout]
    by_cases h : i % 2 = 0 <;> simp [h]
  · rw [hping]
    by_cases h : i % 2 = 0 <;> simp [h]
  · intro hAB
    rw [hping, hout]
    by_cases h : i % 2 = 0
    · simp [h, Ne.symm hAB]
    · simp [h, hAB]

/-- Witness of C15 on the scenario network at layer 1, with distinct buffers. -/
theorem C15_pingpang_names_live_buffer_witness :
    WellFormed (net2 4 4) ∧ 1 < (net2 4 4).CONV_LAYER_NUM ∧ ptrs.bufferA ≠ ptrs.bufferB ∧
    ∃ r s1 a, cnn_fpga (net2 4 4) ptrs = some r ∧ convLoop (net2 4 4) ptrs (1 + 1) = some s1 ∧
      (convCalls r.events)[1]? = some a ∧
      (if s1.pingpang = 0 then ptrs.bufferA else ptrs.bufferB) = a.output ∧
      (s1.pingpang = 0 ∨ s1.pingpang = 1) ∧
      (ptrs.bufferA ≠ ptrs.bufferB →
        (s1.pingpang = 1 ↔ a.output = ptrs.bufferB) ∧
        (s1.pingpang = 0 ↔ a.output = ptrs.bufferA)) :=
  ⟨by decide, by decide, by decide,
    C15_pingpang_names_live_buffer (net2 4 4) ptrs (by decide) 1 (by decide)⟩

/-- C16: when `In`, `bufferA` and `bufferB` are pairwise distinct, the kernel call
of every layer gets an input buffer different from its output buffer, never
gets `In` as its output buffer, and gets `In` as its input buffer only at
layer 0. -/
theorem C16_input_differs_from_output (t : Topology) (p : Pointers) (hw : WellFormed t)
    (i : Nat) (hi : i < t.CONV_LAYER_NUM) (hIA : p.In ≠ p.bufferA) (hIB : p.In ≠ p.bufferB)
    (hAB : p.bufferA ≠ p.bufferB) :
    ∃ r a, cnn_fpga t p = some r ∧ (convCalls r.events)[i]? = some a ∧
      a.input ≠ a.output ∧ a.output ≠ p.In ∧ (a.input = p.In → i = 0) := by
  obtain ⟨r, a, hr, hcall, hin, hout⟩ := run_call_buffers t p hw hi
  refine ⟨r, a, hr, hcall, ?_, ?_, ?_⟩
  · rw [hin, hout]
    by_cases h0 : i = 0
    · subst h0
      simpa using hIB
    · rcases Nat.mod_two_eq_zero_or_one i with h | h
      · simpa [h0, h] using hAB
      · simpa [h0, h] using Ne.symm hAB
  · rw [hout]
    by_cases h : i % 2 = 0
    · simpa [h] using Ne.symm hIB
    · simpa [h] using Ne.symm hIA
  · intro hI
    by_contra h0
    rw [hin, if_neg h0] at hI
    by_cases h : i % 2 = 1
    · rw [if_pos h] at hI
      exact hIB hI.symm
    · rw [if_neg h] at hI
      exact hIA hI.symm

/-- Witness of C16 on the scenario network at layer 1. -/
theorem C16_input_differs_from_output_witness :
    WellFormed (net2 4 4) ∧ 1 < (net2 4 4).CONV_LAYER_NUM ∧
    ptrs.In ≠ ptrs.bufferA ∧ ptrs.In ≠ ptrs.bufferB ∧ ptrs.bufferA ≠ ptrs.bufferB ∧
    ∃ r a, cnn_fpga (net2 4 4) ptrs = some r ∧ (convCalls r.events)[1]? = some a ∧
      a.input ≠ a.output ∧ a.output ≠ ptrs.In ∧ (a.input = ptrs.In → 1 = 0) :=
  ⟨by decide, by decide, by decide, by decide, by decide,
    C16_input_differs_from_output (net2 4 4) ptrs (by decide) 1 (by decide) (by decide)
      (by decide) (by decide)⟩

/-- C17: the kernel call of layer `i` writes `bufferB` when `i` is even and
`bufferA` when `i` is odd, and `pingpang` after layer `i` is 1 when `i` is even
and 0 when `i` is odd. Hence the last kernel call writes `bufferB` when
`CONV_LAYER_NUM` is odd and `bufferA` when it is even; for distinct scratch
buffers it writes `bufferB` if and only if `CONV_LAYER_NUM` is odd. -/
theorem C17_parity_schedule (t : Topology) (p : Pointers) (hw : WellFormed t) (i : Nat)
    (hi : i < t.CONV_LAYER_NUM) :
    ∃ r s1 a last, cnn_fpga t p = some r ∧ convLoop t p (i + 1) = some s1 ∧
      (convCalls r.events)[i]? = some a ∧
      a.output = (if i % 2 = 0 then p.bufferB else p.bufferA) ∧
      s1.pingpang = (if i % 2 = 0 then 1 else 0) ∧
      (convCalls r.events)[t.CONV_LAYER_NUM - 1]? = some last ∧
      (t.CONV_LAYER_NUM % 2 = 1 → last.output = p.bufferB) ∧
      (t.CONV_LAYER_NUM % 2 = 0 → last.output = p.bufferA) ∧
      (p.bufferA ≠ p.bufferB → (last.output = p.bufferB ↔ t.CONV_LAYER_NUM % 2 = 1)) := by
  obtain ⟨r, s1, a, hr, hs1, hcall, hping, hout⟩ := run_parity t p hw hi
  obtain ⟨r0, -, last, hr0, -, hlast, -, hlout⟩ :=
    run_parity t p hw (show t.CONV_LAYER_NUM - 1 < t.CONV_LAYER_NUM by omega)
  have hrr : r0 = r := Option.some.inj (hr0.symm.trans hr)
  subst hrr
  refine ⟨r0, s1, a, last, hr, hs1, hcall, hout, hping, hlast, ?_, ?_, ?_⟩
  · intro hodd
    have h : (t.CONV_LAYER_NUM - 1) % 2 = 0 := by omega
    rw [hlout, if_pos h]
  · intro heven
    have h : ¬ (t.CONV_LAYER_NUM - 1) % 2 = 0 := by omega
    rw [hlout, if_neg h]
  · intro hAB
    rw [hlout]
    rcases Nat.mod_two_eq_zero_or_one t.CONV_LAYER_NUM with heven | hodd
    · have h : ¬ (t.CONV_LAYER_NUM - 1) % 2 = 0 := by omega
      simp [h, hAB, heven]
    · have h : (t.CONV_LAYER_NUM - 1) % 2 = 0 := by omega
      simp [h, hodd]

/-- Witness of C17 on the three-layer network `netK` at layer 1. -/
theorem C17_parity_schedule_witness :
    WellFormed netK ∧ 1 < netK.CONV_LAYER_NUM ∧
    ∃ r s1 a last, cnn_fpga netK ptrs = some r ∧ convLoop netK ptrs (1 + 1) = some s1 ∧
      (convCalls r.events)[1]? = some a ∧
      a.output = (if 1 % 2 = 0 then ptrs.bufferB else ptrs.bufferA) ∧
      s1.pingpang = (if 1 % 2 = 0 then 1 else 0) ∧
      (convCalls r.events)[netK.CONV_LAYER_NUM - 1]? = some last ∧
      (netK.CONV_LAYER_NUM % 2 = 1 → last.output = ptrs.bufferB) ∧
      (netK.CONV_LAYER_NUM % 2 = 0 → last.output = ptrs.bufferA) ∧
      (ptrs.bufferA ≠ ptrs.bufferB →
        (last.output = ptrs.bufferB ↔ netK.CONV_LAYER_NUM % 2 = 1)) :=
  ⟨by decide, by decide, C17_parity_schedule netK ptrs (by decide) 1 (by decide)⟩

/-- The bound on `CONV_LAYER_NUM` matters: with the declared table lengths and
`CONV_LAYER_NUM = 14`, iteration 13 reads `KERNL[13]` and `POOL[13]`, outside
both tables, and the run has no defined result. -/
theorem cnn_fpga_reads_past_tables :
    cnn_fpga { net13 with CONV_LAYER_NUM := 14 } ptrs = none := by
  decide

/-- C18: with the declared table lengths (`SHAPE` and `CHNEL` of length 18,
`KERNL` and `POOL` of length 13) and `CONV_LAYER_NUM <= 13`, every table read of
`cnn_fpga` is inside its table: the reads at index 0 (lines 61, 124, 185), the
reads at `c_layer < CONV_LAYER_NUM`, and the read of `CHNEL[c_layer - 1]` in the
branch `c_layer >= 1`. Hence a run can only be undefined through a zero tile
width: for non-zero tile widths every iteration and the whole run return a
result. -/
theorem C18_table_reads_in_bounds (t : Topology) (p : Pointers)
    (hS : t.SHAPE.length = 18) (hC : t.CHNEL.length = 18) (hK : t.KERNL.length = 13)
    (hP : t.POOL.length = 13) (hL : t.CONV_LAYER_NUM ≤ 13) :
    (t.SHAPE[0]?).isSome ∧ (t.CHNEL[0]?).isSome ∧ (t.KERNL[0]?).isSome ∧
    (∀ c : Nat, c < t.CONV_LAYER_NUM →
      (t.SHAPE[c]?).isSome ∧ (t.CHNEL[c]?).isSome ∧ (t.KERNL[c]?).isSome ∧
      (t.POOL[c]?).isSome ∧ (1 ≤ c → (t.CHNEL[c - 1]?).isSome)) ∧
    (t.ITILE ≠ 0 → t.OTILE ≠ 0 →
      (∃ r, cnn_fpga t p = some r) ∧
      ∀ n : Nat, n ≤ t.CONV_LAYER_NUM → (convLoop t p n).isSome) := by
  refine ⟨?_, ?_, ?_, ?_, ?_⟩
  · rw [List.getElem?_eq_getElem (by omega)]; rfl
  · rw [List.getElem?_eq_getElem (by omega)]; rfl
  · rw [List.getElem?_eq_getElem (by omega)]; rfl
  · intro c hc
    refine ⟨?_, ?_, ?_, ?_, ?_⟩
    · rw [List.getElem?_eq_getElem (by omega)]; rfl
    · rw [List.getElem?_eq_getElem (by omega)]; rfl
    · rw [List.getElem?_eq_getElem (by omega)]; rfl
    · rw [List.getElem?_eq_getElem (by omega)]; rfl
    · intro _
      rw [List.getElem?_eq_getElem (by omega)]; rfl
  · intro hI hO
    have hw : WellFormed t :=
      ⟨by omega, by omega, by omega, by omega, by omega, by omega, hI, hO⟩
    obtain ⟨sh, ch, -, -, hr⟩ := cnn_fpga_eq t p hw
    refine ⟨⟨_, hr⟩, fun n hn => ?_⟩
    rw [convLoop_eq t p hw n hn]
    rfl

/-- Witness of C18 on the sample 13-layer topology. -/
theorem C18_table_reads_in_bounds_witness :
    net13.SHAPE.length = 18 ∧ net13.CHNEL.length = 18 ∧ net13.KERNL.length = 13 ∧
    net13.POOL.length = 13 ∧ net13.CONV_LAYER_NUM ≤ 13 ∧
    ((net13.SHAPE[0]?).isSome ∧ (net13.CHNEL[0]?).isSome ∧ (net13.KERNL[0]?).isSome ∧
    (∀ c : Nat, c < net13.CONV_LAYER_NUM →
      (net13.SHAPE[c]?).isSome ∧ (net13.CHNEL[c]?).isSome ∧ (net13.KERNL[c]?).isSome ∧
      (net13.POOL[c]?).isSome ∧ (1 ≤ c → (net13.CHNEL[c - 1]?).isSome)) ∧
    (net13.ITILE ≠ 0 → net13.OTILE ≠ 0 →
      (∃ r, cnn_fpga net13 ptrs = some r) ∧
      ∀ n : Nat, n ≤ net13.CONV_LAYER_NUM → (convLoop net13 ptrs n).isSome)) :=
  ⟨by decide, by decide, by decide, by decide, by decide,
    C18_table_reads_in_bounds net13 ptrs (by decide) (by decide) (by decide) (by decide)
      (by decide)⟩

end EmbeddedCNN
